import Mathlib

/-!
Verification of the process-execution and result-interpretation engine of
pbo_tools_rs against its specification.

The Rust sources are shallowly embedded: text is represented as `List Char`
(the character list underlying a Rust `String`), byte buffers as `List Nat`
(each element a byte value), and fallible operations return an explicit
result type `Res`.  Filesystem and process effects are represented by
explicit views (`PathView`, `OutDirView`) carrying the answers the code
obtains from the operating system, and by oracle parameters for the
external regex engine and for the worker-thread rendezvous outcome.
-/

set_option maxRecDepth 40000

/-- Character list of a Lean string literal; used to write the embedded
Rust string constants readably. -/
def strL (s : String) : List Char := s.data

/-- Whitespace test used by Rust `str::trim` restricted to the ASCII range
(U+0009..U+000D and U+0020); all strings handled by this code base are
ASCII, where this coincides with `char::is_whitespace`. -/
def isWsChar (c : Char) : Bool := c = ' ' || (9 ≤ c.toNat && c.toNat ≤ 13)

/-- Rust `str::trim_start` on character lists. -/
def trimStartL (l : List Char) : List Char := l.dropWhile isWsChar

/-- Rust `str::trim` on character lists. -/
def trimL (l : List Char) : List Char :=
  ((l.dropWhile isWsChar).reverse.dropWhile isWsChar).reverse

/-- Worker for `splitChar`: first segment and remaining segments of a
split at a separator character. -/
def splitCharCore (sep : Char) : List Char → List Char × List (List Char)
  | [] => ([], [])
  | x :: xs =>
    let r := splitCharCore sep xs
    if x = sep then ([], r.1 :: r.2) else (x :: r.1, r.2)

/-- Rust `str::split(sep)` on character lists: the resulting segment list
is always non-empty. -/
def splitChar (sep : Char) (l : List Char) : List (List Char) :=
  (splitCharCore sep l).1 :: (splitCharCore sep l).2

/-- Rust `str::lines`: split at newlines, dropping one trailing empty
segment produced by a terminal newline, and stripping a trailing
carriage return from each line. -/
def linesOf (s : List Char) : List (List Char) :=
  if s = [] then []
  else
    let segs := splitChar '\n' s
    let segs := if s.getLast? = some '\n' then segs.dropLast else segs
    segs.map (fun l => if l.getLast? = some '\r' then l.dropLast else l)

/-- Rust `str::contains(pat)` for a string pattern: substring containment. -/
def containsSub (pat : List Char) : List Char → Bool
  | [] => pat.isEmpty
  | c :: cs => pat.isPrefixOf (c :: cs) || containsSub pat cs

/-- Rust `str::trim_end_matches(c)` for a single-character pattern:
remove every trailing occurrence. -/
def trimEndChar (c : Char) (l : List Char) : List Char :=
  (l.reverse.dropWhile (· = c)).reverse

/-- Rust `str::replace('\\', "/")`. -/
def replaceBack (l : List Char) : List Char :=
  l.map (fun c => if c = '\\' then '/' else c)

/-- Fuel-driven worker for `trimEndMatchesL`. -/
def trimEndMatchesFuel : Nat → List Char → List Char → List Char
  | 0, _, l => l
  | Nat.succ n, pat, l =>
    if !pat.isEmpty && pat.isSuffixOf l then
      trimEndMatchesFuel n pat (l.take (l.length - pat.length))
    else l

/-- Rust `str::trim_end_matches(pat)` for a string pattern: repeatedly
remove the pattern from the end. -/
def trimEndMatchesL (pat l : List Char) : List Char :=
  trimEndMatchesFuel l.length pat l

/-- Fuel-driven worker for `removeSubAll`. -/
def removeSubFuel : Nat → List Char → List Char → List Char
  | 0, _, l => l
  | Nat.succ n, pat, l =>
    match l with
    | [] => []
    | c :: cs =>
      if !pat.isEmpty && pat.isPrefixOf (c :: cs) then
        removeSubFuel n pat ((c :: cs).drop pat.length)
      else c :: removeSubFuel n pat cs

/-- Rust `str::replace(pat, "")`: remove every (non-overlapping,
left-to-right) occurrence of the pattern. -/
def removeSubAll (pat l : List Char) : List Char := removeSubFuel l.length pat l

/-- Error enum `ExtractError` of `src/error/types.rs` (variants used by
the embedded code). -/
inductive ExtractError where
  | CommandFailed (cmd reason : List Char)
  | NoFiles
  | BadFormat (reason : List Char)
  | Canceled (msg : List Char)
  deriving DecidableEq

/-- Error enum `PboError` of `src/error/types.rs`, together with the
`ValidationFailed` and `InvalidFormat` variants the extraction code
constructs.  `Encoding` carries its context message; paths and reasons
are character lists. -/
inductive PboError where
  | Extraction (e : ExtractError)
  | Timeout (seconds : Nat)
  | FileSystem (msg : List Char)
  | InvalidPbo (msg : List Char)
  | Encoding (context : List Char)
  | CommandNotFound (cmd : List Char)
  | InvalidPath (path : List Char)
  | ValidationFailed (msg : List Char)
  | InvalidFormat (msg : List Char)
  deriving DecidableEq

/-- Rust `Result<T, PboError>`. -/
inductive Res (α : Type) where
  | ok (v : α)
  | error (e : PboError)
  deriving DecidableEq

/-- Struct `ExtractResult` of `src/extract/result.rs`. -/
structure ExtractResult where
  returnCode : Int
  stdout : List Char
  stderr : List Char
  deriving DecidableEq

/-- The `known_warnings` array of `ExtractResult::has_error_indicators`. -/
def knownWarnings : List (List Char) :=
  [strL "1st/last entry has non-zero real_size",
   strL "reserved field non zero",
   strL "no shakey on arma",
   strL "arma pbo is missing a prefix"]

/-- The `error_indicators` array of `ExtractResult::has_error_indicators`. -/
def errorIndicators : List (List Char) :=
  [strL "Error",
   strL "Failed",
   strL "Cannot open",
   strL "Bad Sha",
   strL "unknown header type",
   strL "this warning is set as an error",
   strL "residual bytes in file"]

/-- `ExtractResult::has_error_indicators`: the loop over `known_warnings`
only logs and never sets the flag, so the function reduces to the error
indicator scan over both streams. -/
def ExtractResult.hasErrorIndicators (r : ExtractResult) : Bool :=
  errorIndicators.any (fun ind => containsSub ind r.stderr || containsSub ind r.stdout)

/-- `ExtractResult::is_success`. -/
def ExtractResult.isSuccess (r : ExtractResult) : Bool :=
  (r.returnCode == 0) && !r.hasErrorIndicators

/-- The `skip_patterns` array of `ExtractResult::should_skip_line`. -/
def skipPatterns : List (List Char) :=
  [strL "Active code page:",
   strL "ExtractPbo Version",
   strL "Opening pbo archive",
   strL "prefix=",
   strL "Mikero=",
   strL "version=",
   strL "PboType=",
   strL "===",
   strL "//",
   strL "Created by",
   strL "Author:",
   strL "BinPatches=",
   strL "ReportInvalidFiles=",
   strL "SearchForBinFiles="]

/-- `ExtractResult::should_skip_line`. -/
def ExtractResult.shouldSkipLine (line : List Char) : Bool :=
  line.isEmpty || skipPatterns.any (fun p => containsSub p line)

/-- `ExtractResult::extract_filename`: three line formats, then an
emptiness filter.  `split(':').next()` is the segment before the first
colon, i.e. `takeWhile`. -/
def ExtractResult.extractFilename (line : List Char) : Option (List Char) :=
  let core :=
    if (strL "Extracting ").isPrefixOf line then
      some (replaceBack (trimL (trimEndMatchesL (strL "...") (line.drop 11))))
    else if line.contains ':' then
      some (replaceBack (trimL (line.takeWhile (fun c => c ≠ ':'))))
    else
      some (replaceBack line)
  match core with
  | some s => if s.isEmpty then none else some s
  | none => none

/-- Body of the `ExtractResult::get_file_list` loop for one stdout line. -/
def ExtractResult.fileListStep (line : List Char) : Option (List Char) :=
  let t := trimL line
  if t.isEmpty then none
  else if ExtractResult.shouldSkipLine t then none
  else ExtractResult.extractFilename t

/-- `ExtractResult::get_file_list`: the loop with `continue` is a
`filterMap` over the stdout lines. -/
def ExtractResult.getFileList (r : ExtractResult) : List (List Char) :=
  (linesOf r.stdout).filterMap ExtractResult.fileListStep

/-- `ExtractResult::get_prefix`. -/
def ExtractResult.getPrefix (r : ExtractResult) : Option (List Char) :=
  match (linesOf r.stdout).find? (fun line => (strL "prefix=").isPrefixOf line) with
  | none => none
  | some line =>
    match (splitChar '=' line).get? 1 with
    | none => none
    | some v =>
      let v := trimEndChar ';' (trimL v)
      if v.isEmpty then none else some v

/-- Continuation-byte test of the UTF-8 well-formedness rules. -/
def utf8Cont (b : Nat) : Bool := 0x80 ≤ b && b ≤ 0xBF

/-- One step of UTF-8 decoding at the head of a byte list, following the
Unicode well-formed sequence table (the semantics of Rust
`String::from_utf8` and of the lossy decoder): either a decoded scalar
value with the number of bytes consumed, or `none` with the length of
the maximal subpart to skip. -/
def utf8Step : List Nat → Option Nat × Nat
  | [] => (none, 1)
  | b0 :: rest =>
    if b0 < 0x80 then (some b0, 1)
    else if 0xC2 ≤ b0 && b0 ≤ 0xDF then
      match rest with
      | b1 :: _ =>
        if utf8Cont b1 then (some ((b0 - 0xC0) * 0x40 + (b1 - 0x80)), 2) else (none, 1)
      | [] => (none, 1)
    else if 0xE0 ≤ b0 && b0 ≤ 0xEF then
      let lo1 := if b0 = 0xE0 then 0xA0 else 0x80
      let hi1 := if b0 = 0xED then 0x9F else 0xBF
      match rest with
      | b1 :: rest1 =>
        if lo1 ≤ b1 && b1 ≤ hi1 then
          match rest1 with
          | b2 :: _ =>
            if utf8Cont b2 then
              (some ((b0 - 0xE0) * 0x1000 + (b1 - 0x80) * 0x40 + (b2 - 0x80)), 3)
            else (none, 2)
          | [] => (none, 2)
        else (none, 1)
      | [] => (none, 1)
    else if 0xF0 ≤ b0 && b0 ≤ 0xF4 then
      let lo1 := if b0 = 0xF0 then 0x90 else 0x80
      let hi1 := if b0 = 0xF4 then 0x8F else 0xBF
      match rest with
      | b1 :: rest1 =>
        if lo1 ≤ b1 && b1 ≤ hi1 then
          match rest1 with
          | b2 :: rest2 =>
            if utf8Cont b2 then
              match rest2 with
              | b3 :: _ =>
                if utf8Cont b3 then
                  (some ((b0 - 0xF0) * 0x40000 + (b1 - 0x80) * 0x1000 +
                         (b2 - 0x80) * 0x40 + (b3 - 0x80)), 4)
                else (none, 3)
              | [] => (none, 3)
            else (none, 2)
          | [] => (none, 2)
        else (none, 1)
      | [] => (none, 1)
    else (none, 1)

/-- Fuel-driven worker for `utf8Decode` (each step consumes at least one
byte, so `length` fuel always suffices). -/
def utf8DecodeFuel : Nat → List Nat → Option (List Nat)
  | 0, l => if l.isEmpty then some [] else none
  | Nat.succ n, l =>
    match l with
    | [] => some []
    | _ :: _ =>
      match utf8Step l with
      | (some c, k) => (utf8DecodeFuel n (l.drop k)).map (c :: ·)
      | (none, _) => none

/-- Strict UTF-8 decoding to a scalar-value list: the semantics of Rust
`String::from_utf8` (valid input gives `some`, any ill-formed sequence
gives `none`). -/
def utf8Decode (b : List Nat) : Option (List Nat) := utf8DecodeFuel b.length b

/-- Fuel-driven worker for `utf8Lossy`. -/
def utf8LossyFuel : Nat → List Nat → List Nat
  | 0, _ => []
  | Nat.succ n, l =>
    match l with
    | [] => []
    | _ :: _ =>
      match utf8Step l with
      | (some c, k) => c :: utf8LossyFuel n (l.drop k)
      | (none, k) => 0xFFFD :: utf8LossyFuel n (l.drop k)

/-- Lossy UTF-8 decoding (the semantics of `encoding_rs::UTF_8.decode`):
every maximal ill-formed subpart becomes one U+FFFD replacement.  A NUL
scalar appears in the output exactly where a 0x00 byte appears in the
input. -/
def utf8Lossy (b : List Nat) : List Nat := utf8LossyFuel b.length b

/-- High half (bytes 0x80..0x9F) of the WINDOWS-1252 decode table. -/
def win1252Hi : List Nat :=
  [0x20AC, 0x81, 0x201A, 0x192, 0x201E, 0x2026, 0x2020, 0x2021,
   0x2C6, 0x2030, 0x160, 0x2039, 0x152, 0x8D, 0x17D, 0x8F,
   0x90, 0x2018, 0x2019, 0x201C, 0x201D, 0x2022, 0x2013, 0x2014,
   0x2DC, 0x2122, 0x161, 0x203A, 0x153, 0x9D, 0x17E, 0x178]

/-- WINDOWS-1252 decoding of one byte. -/
def win1252Byte (b : Nat) : Nat :=
  if b < 0x80 || 0xA0 ≤ b then b else ((win1252Hi.get? (b - 0x80)).getD b)

/-- WINDOWS-1252 decoding (the semantics of
`encoding_rs::WINDOWS_1252.decode`, which maps every byte and never
reports errors). -/
def win1252Decode (b : List Nat) : List Nat := b.map win1252Byte

/-- The two-byte file signatures checked by `BinaryContent::appears_binary`. -/
def binSignatures : List (Nat × Nat) :=
  [(0xFF, 0xD8), (0x42, 0x4D), (0x89, 0x50), (0x50, 0x4B), (0xFF, 0xFE), (0xFE, 0xFF)]

/-- `BinaryContent::appears_binary` of `src/fs/binary.rs`.  The Rust code
compares `f64` ratios against the literals 0.3, 0.05 and 0.10; here the
comparisons are carried out exactly by cross-multiplication over the
rationals 3/10, 1/20 and 1/10, which agrees with the `f64` computation on
all buffers whose ratios are not within one rounding error of a
threshold (in particular on every buffer appearing in a theorem below). -/
def appearsBinary (b : List Nat) : Bool :=
  if b.isEmpty then false
  else
    let sample := min 1024 b.length
    let pre := b.take sample
    let maxCount := ((List.range 256).map (fun v => pre.count v)).foldr Nat.max 0
    let nullBytes := pre.count 0
    let controlChars := pre.countP (fun x => !(x == 0) && (x < 9 || (13 < x && x < 32) || x == 127))
    if 10 * maxCount > 3 * sample then true
    else if 20 * nullBytes > sample then true
    else if 10 * controlChars > sample then true
    else
      match b with
      | b0 :: b1 :: _ => binSignatures.contains (b0, b1)
      | _ => false

/-- `BinaryContent::decode_text` of `src/fs/binary.rs`, returning the
decoded scalar-value list.  The `encoding_rs` WINDOWS-1252 decode never
reports errors, so the Rust `had_errors` test is constant `false` and is
dropped; the decoded text (UTF-8 lossy or WINDOWS-1252) contains a NUL
scalar iff the byte buffer contains 0x00. -/
def decodeText (b : List Nat) : Res (List Nat) :=
  if 3 ≤ b.length ∧ b.take 3 = [0xEF, 0xBB, 0xBF] then
    match utf8Decode (b.drop 3) with
    | some cps => .ok cps
    | none => .error (.Encoding (strL "Invalid UTF-8 with BOM"))
  else
    let text := utf8Lossy b
    if !text.contains 0 then .ok text
    else if !appearsBinary b && !(win1252Decode b).contains 0 then .ok (win1252Decode b)
    else
      .error (.Encoding (if appearsBinary b then strL "Content appears to be binary data"
                         else strL "Content contains invalid character sequences"))

/-- Byte values of the ASCII text used in the classifier claim. -/
def helloBytes : List Nat :=
  [72, 101, 108, 108, 111, 44, 32, 119, 111, 114, 108, 100, 33]

/-- Constant `DEFAULT_TIMEOUT` of `src/core/constants.rs`, in seconds. -/
def DEFAULT_TIMEOUT : Nat := 30

/-- The timeout-relevant state of a built `PboApi` (durations are whole
seconds throughout the source: `Duration::from_secs`/`as_secs` round-trip
exactly). -/
structure PboApiM where
  timeoutSecs : Nat
  deriving DecidableEq

/-- `PboApiBuilder` of `src/core/api.rs` (timeout field; the config field
plays no role in the embedded operations). -/
structure PboApiBuilder where
  timeoutSecs : Option Nat
  deriving DecidableEq

/-- `PboApiBuilder::new` / `default`. -/
def PboApiBuilder.new : PboApiBuilder := ⟨none⟩

/-- `PboApiBuilder::with_timeout`: stores `seconds.max(1)` seconds. -/
def PboApiBuilder.withTimeout (_b : PboApiBuilder) (seconds : Nat) : PboApiBuilder :=
  ⟨some (Nat.max seconds 1)⟩

/-- `PboApiBuilder::build`: the default timeout applies when none was set. -/
def PboApiBuilder.build (b : PboApiBuilder) : PboApiM :=
  ⟨b.timeoutSecs.getD DEFAULT_TIMEOUT⟩

/-- `PboApi::new`. -/
def PboApiM.new (timeoutSeconds : Nat) : PboApiM :=
  (PboApiBuilder.new.withTimeout timeoutSeconds).build

/-- Outcome of the rendezvous `rx.recv_timeout(timeout)` inside
`PboApi::with_timeout`: the worker's result arrived in time, the deadline
elapsed first, or the channel disconnected without a result. -/
inductive RecvOutcome (α : Type) where
  | received (r : Res α)
  | timedOut
  | disconnected

/-- The `match rx.recv_timeout(timeout)` arm of `PboApi::with_timeout`:
exactly one outcome is turned into the single value returned to the
caller. -/
def withTimeoutRun (timeoutSecs : Nat) : RecvOutcome α → Res α
  | .received r => r
  | .timedOut => .error (.Timeout timeoutSecs)
  | .disconnected =>
    .error (.Extraction (.Canceled (strL "Operation thread terminated unexpectedly")))

/-- The characters rejected in file filters and destination paths
(`['<', '>', '|', '"', '\'']` in the Rust sources). -/
def badFilterChars : List Char := ['<', '>', '|', Char.ofNat 34, Char.ofNat 39]

/-- Struct `ExtractOptions` of `src/extract/extractor.rs`. -/
structure ExtractOptions where
  noPause : Bool
  warningsAsErrors : Bool
  fileFilter : Option (List Char)
  verbose : Bool
  briefListing : Bool
  deriving DecidableEq

/-- `ExtractOptions::validate`. -/
def ExtractOptions.validate (o : ExtractOptions) : Res Unit :=
  if o.briefListing && o.fileFilter.isSome then
    .error (.ValidationFailed (strL "Brief listing option cannot be used with extraction options"))
  else
    match o.fileFilter with
    | some f =>
      if f.any (fun c => badFilterChars.contains c) then
        .error (.ValidationFailed (strL "File filter contains invalid characters"))
      else .ok ()
    | none => .ok ()

/-- The filter bad-character test of `ExtractOptions::validate`, as a
predicate on the whole option set. -/
def filterHasBadChars (o : ExtractOptions) : Bool :=
  match o.fileFilter with
  | some f => f.any (fun c => badFilterChars.contains c)
  | none => false

/-- The `-F=<pattern>` token contributed by the file filter, if any. -/
def filterTok (o : ExtractOptions) : List (List Char) :=
  match o.fileFilter with
  | some f => [strL "-F=" ++ f]
  | none => []

/-- View of a source path as the extraction code observes it: its string
form, whether it exists on disk, and its `Path::extension()`. -/
structure PathView where
  repr : List Char
  pathExists : Bool
  extension : Option (List Char)
  deriving DecidableEq

/-- View of the output directory as the extraction code observes it: its
string form, existence, parent existence (`none` when the path has no
parent), whether `create_dir_all` would succeed, and
`canonicalize().ok()` as a string. -/
structure OutDirView where
  repr : List Char
  dirExists : Bool
  parentExists : Option Bool
  createOk : Bool
  canonical : Option (List Char)
  deriving DecidableEq

/-- Constant `COMMON_PBO_EXTENSIONS` of `src/core/constants.rs`. -/
def commonPboExtensions : List (List Char) := [strL "pbo", strL "xbo", strL "ifa"]

/-- The `\\?\` verbatim-path marker removed by `replace("\\\\?\\", "")`. -/
def winPrefixPat : List Char := strL "\\\\?\\"

/-- Extension test of `DefaultExtractor::run_extractpbo_command`. -/
def PathView.extOk (p : PathView) : Bool :=
  match p.extension with
  | some e => commonPboExtensions.contains e
  | none => false

/-- The flag-forwarding loop of `DefaultExtractor::run_extractpbo_command`:
`-F=`-prefixed tokens pass unchecked, other `-` tokens must be ASCII
alphanumeric after the dash, non-flag tokens are skipped here. -/
def addFlagArgs : List (List Char) → Res (List (List Char))
  | [] => .ok []
  | a :: rest =>
    if a.head? = some '-' then
      if (strL "-F=").isPrefixOf a then
        match addFlagArgs rest with
        | .ok l => .ok (a :: l)
        | .error e => .error e
      else if (a.drop 1).all (fun c => c.isAlphanum || c = 'B') then
        match addFlagArgs rest with
        | .ok l => .ok (a :: l)
        | .error e => .error e
      else .error (.ValidationFailed (strL "Invalid option format: " ++ a))
    else addFlagArgs rest

/-- The destination loop of `DefaultExtractor::run_extractpbo_command`:
the first non-flag token is validated and becomes the destination. -/
def findDest : List (List Char) → Res (List (List Char))
  | [] => .ok []
  | a :: rest =>
    if a.head? = some '-' then findDest rest
    else if a.any (fun c => badFilterChars.contains c) then
      .error (.ValidationFailed (strL "Invalid destination path: " ++ a))
    else .ok [a]

/-- `DefaultExtractor::run_extractpbo_command`, truncated at the spawn
point: the `ok` payload is the argument vector handed to
`Command::new("extractpbo")`; an `error` means no subprocess is spawned. -/
def runExtractpboCommand (args : List (List Char)) (pbo : PathView) : Res (List (List Char)) :=
  if !pbo.pathExists then .error (.InvalidPath pbo.repr)
  else if !pbo.extOk then
    .error (.InvalidFormat (strL "File " ++ pbo.repr ++ strL " does not have a valid PBO extension"))
  else
    match addFlagArgs args with
    | .error e => .error e
    | .ok flags =>
      match findDest args with
      | .error e => .error e
      | .ok dest => .ok ((strL "-PW" :: flags) ++ (removeSubAll winPrefixPat pbo.repr :: dest))

/-- `DefaultExtractor::extract_with_options`, truncated at the spawn
point (payload is the argument vector). -/
def DefaultExtractor.extractWithOptions (pbo : PathView) (outputDir : OutDirView)
    (o : ExtractOptions) : Res (List (List Char)) :=
  match o.validate with
  | .error e => .error e
  | .ok _ =>
    if !outputDir.dirExists && !outputDir.createOk then .error (.InvalidPath outputDir.repr)
    else
      let opts := (if o.noPause then ['P'] else []) ++ (if o.warningsAsErrors then ['W'] else []) ++
                  (if o.verbose then ['N'] else [])
      let args := (if opts.isEmpty then [] else [('-' :: opts)]) ++
                  (match o.fileFilter with
                   | some f => [strL "-F=" ++ f]
                   | none => [])
      match outputDir.canonical with
      | some c => runExtractpboCommand (args ++ [removeSubAll winPrefixPat c]) pbo
      | none => .error (.InvalidPath outputDir.repr)

/-- `DefaultExtractor::list_with_options`, truncated at the spawn point. -/
def DefaultExtractor.listWithOptions (pbo : PathView) (o : ExtractOptions) :
    Res (List (List Char)) :=
  match o.validate with
  | .error e => .error e
  | .ok _ =>
    let opts := (if o.noPause then ['P'] else []) ++ (if o.warningsAsErrors then ['W'] else []) ++
                (if o.verbose then ['N'] else []) ++ ['L'] ++
                (if o.briefListing then ['B'] else [])
    runExtractpboCommand [('-' :: opts)] pbo

/-- `PboApi::validate_output_dir`: a missing directory is accepted when
its parent exists (or it has no parent); it is rejected only when the
parent is known to be missing. -/
def PboApi.validateOutputDir (d : OutDirView) : Bool :=
  if !d.dirExists then
    match d.parentExists with
    | some pe => pe
    | none => true
  else true

/-- Behavior of the worker thread spawned by `PboApi::with_timeout` for a
given call, as seen through the rendezvous channel. -/
inductive WorkerBehavior where
  | completes
  | timedOut
  | disconnected
  deriving DecidableEq

/-- The `with_timeout` envelope around the extraction worker: when the
worker completes, the caller receives its value; otherwise the timeout or
disconnection error. -/
def PboApi.runExtractWorker (api : PboApiM) (behavior : WorkerBehavior) (pbo : PathView)
    (outputDir : OutDirView) (o : ExtractOptions) : Res (List (List Char)) :=
  match behavior with
  | .completes => DefaultExtractor.extractWithOptions pbo outputDir o
  | .timedOut => .error (.Timeout api.timeoutSecs)
  | .disconnected =>
    .error (.Extraction (.Canceled (strL "Operation thread terminated unexpectedly")))

/-- `PboApi::extract_with_options`, truncated at the spawn point.  The
external regex engine is an oracle parameter `regexOk` (the `regex` crate
is not part of this repository); `behavior` is the rendezvous outcome of
the worker thread. -/
def PboApi.extractWithOptions (api : PboApiM) (regexOk : List Char → Bool)
    (behavior : WorkerBehavior) (pbo : PathView) (outputDir : OutDirView)
    (o : ExtractOptions) : Res (List (List Char)) :=
  if !pbo.pathExists then .error (.InvalidPath pbo.repr)
  else if !PboApi.validateOutputDir outputDir then .error (.InvalidPath outputDir.repr)
  else
    match o.fileFilter with
    | some f =>
      if (trimL f).isEmpty then .error (.ValidationFailed (strL "File filter cannot be empty"))
      else if !f.contains '*' && !f.contains '?' && !regexOk f then
        .error (.ValidationFailed (strL "Invalid file filter pattern: " ++ f))
      else PboApi.runExtractWorker api behavior pbo outputDir o
    | none => PboApi.runExtractWorker api behavior pbo outputDir o

/-- Association-list lookup; the embedding of `HashMap::get` (all key
sets in the configuration have pairwise distinct keys, so insertion
order is irrelevant). -/
def lookupAssoc (m : List (List Char × List Char)) (k : List Char) : Option (List Char) :=
  match m.find? (fun e => e.1 = k) with
  | some e => some e.2
  | none => none

/-- ASCII lowercasing, the embedding of Rust `str::to_lowercase` on the
ASCII file names handled here. -/
def toLowerL (l : List Char) : List Char := l.map Char.toLower

/-- The default `bin_file_types` insertions of both `PboConfigBuilder::new`
variants (`src/config.rs` and `src/core/config.rs`). -/
def defaultBinFileTypes : List (List Char × List Char) :=
  [(strL "config.bin", strL "config.cpp"),
   (strL "model.bin", strL "model.cfg"),
   (strL "stringtable.bin", strL "stringtable.xml"),
   (strL "texheaders.bin", strL "texheaders.txt"),
   (strL "script.bin", strL "script.cpp"),
   (strL "default", strL ".txt")]

/-- Struct `PboConfig` of `src/config.rs` (the variant used by
`PboCore` in `src/core.rs`; lookups are direct, case handling lives in
`detect_bin_type`). -/
structure PboConfigCore where
  binFileTypes : List (List Char × List Char)
  deriving DecidableEq

/-- The default `PboConfig` of `src/config.rs`. -/
def PboConfigCore.default : PboConfigCore := ⟨defaultBinFileTypes⟩

/-- `PboConfig::get_bin_extension` of `src/config.rs`. -/
def PboConfigCore.getBinExtension (cfg : PboConfigCore) (filename : List Char) :
    Option (List Char) :=
  lookupAssoc cfg.binFileTypes filename

/-- Struct `PboConfig` of `src/core/config.rs` (the variant with the
case-sensitivity flag). -/
structure PboConfigCC where
  binFileTypes : List (List Char × List Char)
  caseSensitive : Bool
  deriving DecidableEq

/-- The default `PboConfig` built by `PboConfigBuilder::new` of
`src/core/config.rs`: case-insensitive, with the default mappings. -/
def PboConfigCC.default : PboConfigCC := ⟨defaultBinFileTypes, false⟩

/-- `PboConfig::get_bin_extension` of `src/core/config.rs`: the lookup
name is lowercased when the configuration is case-insensitive. -/
def PboConfigCC.getBinExtension (cfg : PboConfigCC) (filename : List Char) :
    Option (List Char) :=
  lookupAssoc cfg.binFileTypes (if cfg.caseSensitive then filename else toLowerL filename)

/-- Rust `Path::file_name` on the forward-slash paths used here: the
component after the last separator. -/
def fileNameOf (p : List Char) : List Char :=
  (p.reverse.takeWhile (fun c => c ≠ '/')).reverse

/-- Directory part including the trailing separator, so that
`withFileNameOf p n = dirPartOf p ++ n` models `Path::with_file_name`. -/
def dirPartOf (p : List Char) : List Char :=
  (p.reverse.dropWhile (fun c => c ≠ '/')).reverse

/-- Rust `Path::with_file_name`. -/
def withFileNameOf (p n : List Char) : List Char := dirPartOf p ++ n

/-- Rust `Path::extension` on the file name: the part after the last
dot, absent when there is no dot or the only dot leads the name. -/
def extensionOf (p : List Char) : Option (List Char) :=
  let fn := fileNameOf p
  let ext := (fn.reverse.takeWhile (fun c => c ≠ '.')).reverse
  if ext.length = fn.length ∨ ext.length + 1 = fn.length ∧ fn.head? = some '.' then none
  else some ext

/-- `PboCore::detect_bin_type` of `src/core.rs`: lowercase the file
name, look it up in the mapping, and otherwise apply the `default`
fallback to any remaining `*.bin` name, preserving the stem. -/
def PboCore.detectBinType (cfg : PboConfigCore) (path : List Char) : Option (List Char) :=
  let name := toLowerL (fileNameOf path)
  match cfg.getBinExtension name with
  | some ext => some ext
  | none =>
    if (strL ".bin").isSuffixOf name then
      some (trimEndMatchesL (strL ".bin") name ++ (cfg.getBinExtension (strL "default")).getD [])
    else none

/-- `PboCore::process_extracted_bins` of `src/core.rs` as a rename plan:
for every walked file with extension `bin`, the pair of its path and the
renamed path. -/
def PboCore.processExtractedBins (cfg : PboConfigCore) (files : List (List Char)) :
    List (List Char × List Char) :=
  files.filterMap (fun p =>
    if extensionOf p = some (strL "bin") then
      match PboCore.detectBinType cfg p with
      | some n => some (p, withFileNameOf p n)
      | none => none
    else none)

/-- State of `TempFileManager` of `src/fs/temp.rs`: the registry of
active scratch directories (the mutex-protected `HashSet`, as a list of
distinct paths). -/
structure TempFileManager where
  tempBase : List Char
  activeDirs : List (List Char)
  maxAgeSecs : Nat
  deriving DecidableEq

/-- `TempFileManager::new` (age default 3600 s). -/
def TempFileManager.new (base : List Char) : TempFileManager := ⟨base, [], 3600⟩

/-- `impl Clone for TempFileManager`: the clone receives a copy of the
current `active_dirs` set. -/
def TempFileManager.clone (m : TempFileManager) : TempFileManager :=
  ⟨m.tempBase, m.activeDirs, m.maxAgeSecs⟩

/-- `TempFileManager::create_temp_dir` (registry part): the fresh
uniquely-named directory is inserted into the registry. -/
def TempFileManager.createTempDir (m : TempFileManager) (fresh : List Char) :
    TempFileManager × List Char :=
  (⟨m.tempBase, fresh :: m.activeDirs, m.maxAgeSecs⟩, fresh)

/-- `TempFileManager::cleanup_old_dirs`: every registered directory whose
on-disk age exceeds `max_age` (the `isExpired` view of the filesystem
query) is removed from disk and from the registry; the second component
is the list of paths removed from disk. -/
def TempFileManager.cleanupOldDirs (isExpired : List Char → Bool) (m : TempFileManager) :
    TempFileManager × List (List Char) :=
  (⟨m.tempBase, m.activeDirs.filter (fun p => !isExpired p), m.maxAgeSecs⟩,
   m.activeDirs.filter isExpired)

/-- Spec-side reading of the amended prefix rule: the text strictly
between the first `=` and the following `=` (or the end of the line). -/
def afterFirstEq : List Char → Option (List Char)
  | [] => none
  | c :: rest =>
    if c = '=' then some (rest.takeWhile (fun x => x ≠ '=')) else afterFirstEq rest

/-- Spec-side prefix extraction, written from the amended claim: on the
first stdout line starting with `prefix=`, take the text between the
first two `=` signs (or to end of line), trim whitespace and trailing
semicolons, and drop empty values. -/
def specPrefixVal (out : List Char) : Option (List Char) :=
  match (linesOf out).find? (fun line => (strL "prefix=").isPrefixOf line) with
  | none => none
  | some line =>
    match afterFirstEq line with
    | none => none
    | some v =>
      let w := trimEndChar ';' (trimL v)
      if w.isEmpty then none else some w

/-- Spec-side metadata test: the line contains one of the fixed metadata
patterns as a substring. -/
def specSkip (t : List Char) : Bool := skipPatterns.any (fun p => containsSub p t)

/-- Spec-side filename rule of the amended file-list claim: strip an
`Extracting ` marker line of its marker and trailing `...`; otherwise
take the part before the first colon when a colon is present, else the
bare line; normalize separators. -/
def specName (t : List Char) : List Char :=
  if (strL "Extracting ").isPrefixOf t then
    replaceBack (trimL (trimEndMatchesL (strL "...") (t.drop 11)))
  else if t.contains ':' then
    replaceBack (trimL (t.takeWhile (fun c => c ≠ ':')))
  else replaceBack t

/-- Spec-side file list, written from the amended claim: trim each
stdout line, drop empty and metadata lines, map the remaining lines to
their extracted names, and drop names that come out empty. -/
def specFileList (out : List Char) : List (List Char) :=
  ((((linesOf out).map trimL).filter (fun t => !t.isEmpty && !specSkip t)).map specName).filter
    (fun n => !n.isEmpty)


















/-! Helper lemmas shared by the claim theorems. -/

theorem splitCharCore_fst (sep : Char) (l : List Char) :
    (splitCharCore sep l).1 = l.takeWhile (fun c => c ≠ sep) := by
  induction l with
  | nil => rfl
  | cons x xs ih =>
    simp only [splitCharCore, List.takeWhile]
    by_cases h : x = sep
    · simp [h]
    · simp [h, ih]

theorem splitCharCore_snd_headq (l : List Char) :
    ((splitCharCore '=' l).2).head? = afterFirstEq l := by
  induction l with
  | nil => rfl
  | cons x xs ih =>
    simp only [splitCharCore, afterFirstEq]
    by_cases h : x = '='
    · simp [h, splitCharCore_fst]
    · simp [h, ih]

theorem extractFilename_eq_specName (t : List Char) :
    ExtractResult.extractFilename t =
      if (specName t).isEmpty then none else some (specName t) := by
  unfold ExtractResult.extractFilename specName
  by_cases h1 : (strL "Extracting ").isPrefixOf t
  · simp [h1]
  · by_cases h2 : (':' : Char) ∈ t
    · simp [h1, h2]
    · simp [h1, h2]

theorem shouldSkipLine_of_ne_empty (t : List Char) (h : t.isEmpty = false) :
    ExtractResult.shouldSkipLine t = specSkip t := by
  simp [ExtractResult.shouldSkipLine, specSkip, h]

theorem fileList_aux (ls : List (List Char)) :
    ls.filterMap ExtractResult.fileListStep =
    ((((ls.map trimL).filter (fun t => !t.isEmpty && !specSkip t)).map specName).filter
      (fun n => !n.isEmpty)) := by
  induction ls with
  | nil => rfl
  | cons a tl ih =>
    by_cases h1 : (trimL a).isEmpty
    · have hstep : ExtractResult.fileListStep a = none := by
        simp [ExtractResult.fileListStep, h1]
      simp [List.filterMap_cons, hstep, h1, ih]
    · have h1f : (trimL a).isEmpty = false := by simpa using h1
      by_cases h2 : specSkip (trimL a)
      · have hstep : ExtractResult.fileListStep a = none := by
          simp [ExtractResult.fileListStep, h1f, shouldSkipLine_of_ne_empty _ h1f, h2]
        simp [List.filterMap_cons, hstep, h1f, h2, ih]
      · have hstep : ExtractResult.fileListStep a =
            if (specName (trimL a)).isEmpty then none else some (specName (trimL a)) := by
          simp [ExtractResult.fileListStep, h1f, shouldSkipLine_of_ne_empty _ h1f, h2,
            extractFilename_eq_specName]
        by_cases h3 : (specName (trimL a)).isEmpty
        · simp [List.filterMap_cons, hstep, h1f, h2, h3, ih]
        · simp [List.filterMap_cons, hstep, h1f, h2, h3, ih]

/-- C1: `is_success` holds exactly when the exit code is zero and no
error-indicator substring occurs in either stream; a non-zero exit code
alone forces failure.  The verdict is a function of the exit code and
the indicator matches only, so the presence of a known-warning substring
cannot flip it. -/
theorem c1_is_success_characterization :
    (∀ r : ExtractResult, r.isSuccess = true ↔
      (r.returnCode = 0 ∧ ∀ ind ∈ errorIndicators,
        containsSub ind r.stdout = false ∧ containsSub ind r.stderr = false)) ∧
    (∀ r : ExtractResult, r.returnCode ≠ 0 → r.isSuccess = false) := by
  constructor
  · intro r
    simp only [ExtractResult.isSuccess, ExtractResult.hasErrorIndicators, Bool.and_eq_true,
      beq_iff_eq, Bool.not_eq_true', List.any_eq_false, Bool.or_eq_false_iff]
    constructor
    · rintro ⟨h1, h2⟩
      refine ⟨h1, fun i hi => ?_⟩
      have h := h2 i hi
      rw [Bool.not_eq_true, Bool.or_eq_false_iff] at h
      exact ⟨h.2, h.1⟩
    · rintro ⟨h1, h2⟩
      refine ⟨h1, fun i hi => ?_⟩
      rw [Bool.not_eq_true, Bool.or_eq_false_iff]
      exact ⟨(h2 i hi).2, (h2 i hi).1⟩
  · intro r h
    simp [ExtractResult.isSuccess, h]

/-- Witness for C1 at concrete results: exit code 1 with clean streams
fails; exit code 0 with a known warning in stderr succeeds. -/
theorem c1_witness :
    ExtractResult.isSuccess ⟨1, [], []⟩ = false ∧
    ExtractResult.isSuccess ⟨0, [], strL "no shakey on arma"⟩ = true := by
  constructor
  · exact c1_is_success_characterization.2 ⟨1, [], []⟩ (by decide)
  · exact (c1_is_success_characterization.1 ⟨0, [], strL "no shakey on arma"⟩).mpr
      ⟨rfl, by decide⟩

/-- C2 counterexample: on the single line `prefix=first;prefix=second;`
the code yields `Some("first;prefix")` (the segment between the first
two `=` signs), not `Some("first")`; and all trailing semicolons are
removed, not just one. -/
theorem c2_counterexample :
    ExtractResult.getPrefix ⟨0, strL "prefix=first;prefix=second;", []⟩ =
      some (strL "first;prefix") ∧
    strL "first;prefix" ≠ strL "first" ∧
    ExtractResult.getPrefix ⟨0, strL "prefix=abc;;", []⟩ = some (strL "abc") := by
  refine ⟨by decide, by decide, by decide⟩

/-- C2 amended: `get_prefix` returns the text between the first `=` and
the next `=` (or end of line) on the first stdout line starting with
`prefix=`, trimmed of whitespace and of all trailing semicolons, `none`
when no such line exists or the value is empty after trimming; the
spec's first two examples hold unchanged. -/
theorem c2_prefix_characterization :
    (∀ r : ExtractResult, r.getPrefix = specPrefixVal r.stdout) ∧
    ExtractResult.getPrefix ⟨0, strL "prefix=tc/mirrorform;\nother", []⟩ =
      some (strL "tc/mirrorform") ∧
    ExtractResult.getPrefix ⟨0, [], []⟩ = none := by
  refine ⟨fun r => ?_, by decide, by decide⟩
  unfold ExtractResult.getPrefix specPrefixVal
  cases hfind : (linesOf r.stdout).find? (fun line => (strL "prefix=").isPrefixOf line) with
  | none => rfl
  | some line =>
    simp only [splitChar, List.get?_cons_succ, List.get?_zero, splitCharCore_snd_headq]

/-- C3 counterexample: with stdout `":x\nExtracting foo..."` both lines
survive the emptiness and metadata filters, yet the result is the single
path `foo`: the line `:x` contributes nothing (its part before the first
colon is empty) and the `Extracting` line is rewritten, so not every
remaining line contributes one path, and a contributed path need not be
the bare line. -/
theorem c3_counterexample :
    ExtractResult.getFileList ⟨0, strL ":x\nExtracting foo...", []⟩ = [strL "foo"] ∧
    ExtractResult.shouldSkipLine (trimL (strL ":x")) = false ∧
    (trimL (strL ":x")).isEmpty = false ∧
    ExtractResult.shouldSkipLine (trimL (strL "Extracting foo...")) = false ∧
    strL "foo" ≠ strL "Extracting foo..." := by
  refine ⟨by decide, by decide, by decide, by decide, by decide⟩

/-- C3 amended: a trimmed stdout line is excluded exactly when it is
empty, contains one of the fixed metadata patterns as a substring, or
its extracted name comes out empty; every other line contributes one
path, where a line starting with `Extracting ` yields the remainder with
trailing `...` stripped, a line containing a colon yields the trimmed
part before the first colon, and any other line stands for itself, with
backslash separators normalized to forward slashes. -/
theorem c3_file_list_characterization :
    ∀ r : ExtractResult, r.getFileList = specFileList r.stdout := by
  intro r
  unfold ExtractResult.getFileList specFileList
  exact fileList_aux (linesOf r.stdout)

/-- C4: the content classifier is a pure function of the byte buffer:
the buffer `[0x00,0x00,0xFF,0xFF,0x00]` classifies as binary and fails
to decode with an Encoding error; the ASCII bytes of `Hello, world!`
classify as text and decode to that text; and any buffer led by the
UTF-8 byte-order mark has its remainder decoded strictly as UTF-8,
failing with an Encoding error exactly on ill-formed sequences. -/
theorem c4_content_classifier :
    (appearsBinary [0, 0, 255, 255, 0] = true ∧
      decodeText [0, 0, 255, 255, 0] =
        .error (.Encoding (strL "Content appears to be binary data"))) ∧
    (appearsBinary helloBytes = false ∧ decodeText helloBytes = .ok helloBytes) ∧
    (∀ rest : List Nat, decodeText (0xEF :: 0xBB :: 0xBF :: rest) =
      match utf8Decode rest with
      | some cps => Res.ok cps
      | none => Res.error (.Encoding (strL "Invalid UTF-8 with BOM"))) := by
  refine ⟨⟨by decide, by decide⟩, ⟨by decide, by decide⟩, fun rest => ?_⟩
  have hcond : 3 ≤ (0xEF :: 0xBB :: 0xBF :: rest).length ∧
      (0xEF :: 0xBB :: 0xBF :: rest).take 3 = [0xEF, 0xBB, 0xBF] := by
    constructor
    · simp
    · rfl
  simp only [decodeText]
  rw [if_pos hcond]
  norm_num [List.drop_succ_cons]

/-- C5: the execution timeout defaults to 30 seconds, is caller
overridable with a floor of one second (a requested 0 becomes 1), and a
call whose worker misses the deadline receives exactly the error
`Timeout(<configured seconds>)` — never an `ok` value as well, since the
rendezvous produces a single result. -/
theorem c5_timeout_policy :
    (∀ s : Nat, ((PboApiBuilder.new.withTimeout s).build).timeoutSecs = Nat.max s 1) ∧
    ((PboApiBuilder.new.build).timeoutSecs = 30) ∧
    (((PboApiBuilder.new.withTimeout 0).build).timeoutSecs = 1) ∧
    (∀ (α : Type) (s : Nat),
      withTimeoutRun (α := α) ((PboApiBuilder.new.withTimeout s).build).timeoutSecs
          RecvOutcome.timedOut = Res.error (.Timeout (Nat.max s 1)) ∧
      ∀ v : α, withTimeoutRun ((PboApiBuilder.new.withTimeout s).build).timeoutSecs
          RecvOutcome.timedOut ≠ Res.ok v) := by
  refine ⟨fun s => rfl, rfl, rfl, fun α s => ⟨rfl, fun v h => Res.noConfusion h⟩⟩

/-- C7: under the default mapping, the post-extraction walk renames
`config.bin` to `config.cpp` and the unmapped `foo.bin` to `foo.txt`
(fallback, stem preserved), leaving non-`bin` files alone; the default
configuration is case-insensitive and its basename lookup lowercases
before matching. -/
theorem c7_extension_mapper :
    PboCore.processExtractedBins PboConfigCore.default
      [strL "out/config.bin", strL "out/data.paa", strL "out/foo.bin"] =
      [(strL "out/config.bin", strL "out/config.cpp"),
       (strL "out/foo.bin", strL "out/foo.txt")] ∧
    PboConfigCC.default.caseSensitive = false ∧
    PboConfigCC.getBinExtension PboConfigCC.default (strL "Config.Bin") =
      some (strL "config.cpp") ∧
    PboCore.detectBinType PboConfigCore.default (strL "out/foo.bin") =
      some (strL "foo.txt") := by
  refine ⟨by decide, rfl, by decide, by decide⟩

/-- C8: `Clone` for `TempFileManager` copies the current registry, so
after handle A creates a scratch directory and is cloned to B, the
directory sits in B's registry although B never created it, and once it
expires B's cleanup pass removes it from disk while A still registers
it — contradicting the claim that each handle's registry holds only
directories it itself created. -/
theorem c8_clone_shares_registry :
    (let m0 := TempFileManager.new (strL "/tmp/pbo_tools")
     let m1 := (m0.createTempDir (strL "/tmp/pbo_tools/.tmpa1")).1
     let c := m1.clone
     (strL "/tmp/pbo_tools/.tmpa1") ∈ c.activeDirs ∧
     (TempFileManager.cleanupOldDirs (fun _ => true) c).2 =
       [strL "/tmp/pbo_tools/.tmpa1"] ∧
     (strL "/tmp/pbo_tools/.tmpa1") ∈ m1.activeDirs) := by
  refine ⟨by decide, by decide, by decide⟩

theorem mem_dropWhile_of_mem {p : Char → Bool} {c : Char} {l : List Char}
    (hc : c ∈ l) (hp : p c = false) : c ∈ l.dropWhile p := by
  induction l with
  | nil => cases hc
  | cons a t ih =>
    by_cases ha : p a
    · rcases List.mem_cons.mp hc with rfl | h
      · rw [ha] at hp; cases hp
      · simpa [List.dropWhile_cons, ha] using ih h
    · simpa [List.dropWhile_cons, ha] using hc

theorem mem_trimL {c : Char} {l : List Char} (hc : c ∈ l) (hp : isWsChar c = false) :
    c ∈ trimL l := by
  unfold trimL
  exact List.mem_reverse.mpr
    (mem_dropWhile_of_mem (List.mem_reverse.mpr (mem_dropWhile_of_mem hc hp)) hp)

theorem trimL_not_empty_of_badchar {f : List Char}
    (h : f.any (fun c => badFilterChars.contains c) = true) :
    (trimL f).isEmpty = false := by
  obtain ⟨c, hcmem, hcbad⟩ := List.any_eq_true.mp h
  have hmem : c ∈ badFilterChars := by
    simpa [List.contains] using hcbad
  have hws : isWsChar c = false := by
    have hall : ∀ x ∈ badFilterChars, isWsChar x = false := by decide
    exact hall c hmem
  have hne : trimL f ≠ [] := List.ne_nil_of_mem (mem_trimL hcmem hws)
  cases htest : (trimL f).isEmpty
  · rfl
  · exact absurd (List.isEmpty_iff.mp htest) hne

theorem validate_error_of_badchar {o : ExtractOptions} {f : List Char}
    (hf : o.fileFilter = some f)
    (hbad : f.any (fun c => badFilterChars.contains c) = true) :
    ∃ m, o.validate = .error (.ValidationFailed m) := by
  unfold ExtractOptions.validate
  by_cases hb : (o.briefListing && o.fileFilter.isSome) = true
  · exact ⟨strL "Brief listing option cannot be used with extraction options",
      by rw [if_pos hb]⟩
  · refine ⟨strL "File filter contains invalid characters", ?_⟩
    rw [if_neg hb, hf]
    have hbadm : ∃ x ∈ f, x ∈ badFilterChars := by simpa using hbad
    simp [hbadm]

/-- C6 counterexample: the filter `<` is rejected before any subprocess
is spawned, but the validation error carries the fixed message
`File filter contains invalid characters`, which does not name the
offending token. -/
theorem c6_counterexample :
    PboApi.extractWithOptions ⟨30⟩ (fun _ => true) .completes
      ⟨strL "a.pbo", true, some (strL "pbo")⟩
      ⟨strL "out", true, some true, true, some (strL "D:/out")⟩
      ⟨true, true, some (strL "<"), false, false⟩ =
      .error (.ValidationFailed (strL "File filter contains invalid characters")) ∧
    containsSub (strL "<") (strL "File filter contains invalid characters") = false := by
  refine ⟨by decide, by decide⟩

/-- C6 amended: for every file filter containing one of `< > | " '` and
for every filter that is empty after trimming, the extract call returns
a ValidationFailed error and no subprocess is spawned (the model's `ok`
payload is the spawn); the error carries a fixed description rather
than the offending token. -/
theorem c6_filter_validation :
    ∀ (api : PboApiM) (regexOk : List Char → Bool) (pbo : PathView) (outDir : OutDirView)
      (o : ExtractOptions) (f : List Char),
      o.fileFilter = some f →
      pbo.pathExists = true →
      PboApi.validateOutputDir outDir = true →
      ((trimL f).isEmpty = true ∨ f.any (fun c => badFilterChars.contains c) = true) →
      ∃ m, PboApi.extractWithOptions api regexOk .completes pbo outDir o =
        .error (.ValidationFailed m) := by
  intro api regexOk pbo outDir o f hf hpe hod hcase
  rcases hcase with hemp | hbad
  · exact ⟨strL "File filter cannot be empty",
      by simp [PboApi.extractWithOptions, hpe, hod, hf, hemp]⟩
  · have htrim := trimL_not_empty_of_badchar hbad
    obtain ⟨m, hval⟩ := validate_error_of_badchar hf hbad
    by_cases hstar : ('*' : Char) ∈ f
    · exact ⟨m, by simp [PboApi.extractWithOptions, PboApi.runExtractWorker,
        DefaultExtractor.extractWithOptions, hpe, hod, hf, htrim, hstar, hval]⟩
    · by_cases hq : ('?' : Char) ∈ f
      · exact ⟨m, by simp [PboApi.extractWithOptions, PboApi.runExtractWorker,
          DefaultExtractor.extractWithOptions, hpe, hod, hf, htrim, hstar, hq, hval]⟩
      · by_cases hreg : regexOk f = true
        · exact ⟨m, by simp [PboApi.extractWithOptions, PboApi.runExtractWorker,
            DefaultExtractor.extractWithOptions, hpe, hod, hf, htrim, hstar, hq, hreg, hval]⟩
        · exact ⟨strL "Invalid file filter pattern: " ++ f,
            by simp [PboApi.extractWithOptions, hpe, hod, hf, htrim, hstar, hq, hreg]⟩

/-- Witness for C6 at a concrete pipe-carrying filter. -/
theorem c6_filter_validation_witness :
    ∃ m, PboApi.extractWithOptions ⟨30⟩ (fun _ => true) .completes
      ⟨strL "b.pbo", true, some (strL "pbo")⟩
      ⟨strL "out2", true, some true, true, some (strL "D:/out2")⟩
      ⟨true, true, some (strL "a|b"), false, false⟩ =
      .error (.ValidationFailed m) :=
  c6_filter_validation ⟨30⟩ (fun _ => true)
    ⟨strL "b.pbo", true, some (strL "pbo")⟩
    ⟨strL "out2", true, some true, true, some (strL "D:/out2")⟩
    ⟨true, true, some (strL "a|b"), false, false⟩ (strL "a|b")
    rfl rfl (by decide) (Or.inr (by decide))

/-- C10: a non-empty file filter with no glob wildcard must additionally
compile as a regular expression (the external regex engine is the
`regexOk` oracle); when compilation fails the call returns a
ValidationFailed error naming the filter, independent of the worker
behavior — before the extractor runs or any subprocess is spawned. -/
theorem c10_regex_precondition :
    ∀ (api : PboApiM) (regexOk : List Char → Bool) (behavior : WorkerBehavior)
      (pbo : PathView) (outDir : OutDirView) (o : ExtractOptions) (f : List Char),
      o.fileFilter = some f →
      pbo.pathExists = true →
      PboApi.validateOutputDir outDir = true →
      (trimL f).isEmpty = false →
      f.contains '*' = false →
      f.contains '?' = false →
      regexOk f = false →
      PboApi.extractWithOptions api regexOk behavior pbo outDir o =
        .error (.ValidationFailed (strL "Invalid file filter pattern: " ++ f)) := by
  intro api regexOk behavior pbo outDir o f hf hpe hod htrim hstar hq hreg
  have hstarm : ('*' : Char) ∉ f := by simpa using hstar
  have hqm : ('?' : Char) ∉ f := by simpa using hq
  simp [PboApi.extractWithOptions, hf, hpe, hod, htrim, hstarm, hqm, hreg]

/-- Witness for C10 at the filter `file[1.sqf` with a failing regex
oracle and a worker that would time out: the validation error wins. -/
theorem c10_regex_precondition_witness :
    PboApi.extractWithOptions ⟨30⟩ (fun _ => false) .timedOut
      ⟨strL "a.pbo", true, some (strL "pbo")⟩
      ⟨strL "out", true, some true, true, some (strL "D:/out")⟩
      ⟨true, true, some (strL "file[1.sqf"), false, false⟩ =
      .error (.ValidationFailed (strL "Invalid file filter pattern: file[1.sqf")) := by
  have h := c10_regex_precondition ⟨30⟩ (fun _ => false) .timedOut
    ⟨strL "a.pbo", true, some (strL "pbo")⟩
    ⟨strL "out", true, some true, true, some (strL "D:/out")⟩
    ⟨true, true, some (strL "file[1.sqf"), false, false⟩ (strL "file[1.sqf")
    rfl rfl (by decide) (by decide) (by decide) (by decide) rfl
  rw [show strL "Invalid file filter pattern: " ++ strL "file[1.sqf" =
    strL "Invalid file filter pattern: file[1.sqf" from by decide] at h
  exact h

theorem strPWeq : strL "-PW" = ['-', 'P', 'W'] := by decide

theorem strFeq : strL "-F=" = ['-', 'F', '='] := by decide

theorem isPrefixOfApp (p x : List Char) : p.isPrefixOf (p ++ x) = true := by
  induction p with
  | nil => simp [List.isPrefixOf]
  | cons a t ih => simp [List.isPrefixOf, ih]

/-- C9 counterexample: for a request with both core flags, a filter and a
destination, the spawned argument vector carries the catenated core-flag
token `-PW` twice — the hard-coded one and the options-derived one — so
the core flags are not catenated into exactly one token. -/
theorem c9_counterexample :
    DefaultExtractor.extractWithOptions
      ⟨strL "a.pbo", true, some (strL "pbo")⟩
      ⟨strL "out", true, some true, true, some (strL "D:/out")⟩
      ⟨true, true, some (strL "f"), false, false⟩ =
      .ok [strL "-PW", strL "-PW", strL "-F=f", strL "a.pbo", strL "D:/out"] ∧
    ([strL "-PW", strL "-PW", strL "-F=f", strL "a.pbo", strL "D:/out"].count (strL "-PW"))
      = 2 := by
  refine ⟨by decide, by decide⟩

/-- C9 amended: for every request with the don't-pause and
warnings-as-errors flags set (as every API entry point sets them), the
argument vector is ordered: the hard-coded core token `-PW` first, then
the options-derived flag token catenating `P`, `W`, the verbose flag and
— for list operations — the list/brief flags (so the two core flags
appear catenated in two tokens, not one), then the file-filter token
with its pattern, then the source path, and the destination path last,
only if present (extraction only; list requests carry none). -/
theorem c9_argument_order :
    (∀ (pbo : PathView) (outDir : OutDirView) (o : ExtractOptions) (c : List Char),
      o.noPause = true → o.warningsAsErrors = true →
      (o.briefListing && o.fileFilter.isSome) = false →
      filterHasBadChars o = false →
      pbo.pathExists = true → pbo.extOk = true →
      (outDir.dirExists || outDir.createOk) = true →
      outDir.canonical = some c →
      (removeSubAll winPrefixPat c).head? ≠ some '-' →
      (∀ x ∈ removeSubAll winPrefixPat c, x ∉ badFilterChars) →
      DefaultExtractor.extractWithOptions pbo outDir o =
        .ok ([strL "-PW", '-' :: 'P' :: 'W' :: (if o.verbose then ['N'] else [])] ++
             filterTok o ++
             [removeSubAll winPrefixPat pbo.repr, removeSubAll winPrefixPat c])) ∧
    (∀ (pbo : PathView) (o : ExtractOptions),
      o.noPause = true → o.warningsAsErrors = true →
      (o.briefListing && o.fileFilter.isSome) = false →
      filterHasBadChars o = false →
      pbo.pathExists = true → pbo.extOk = true →
      DefaultExtractor.listWithOptions pbo o =
        .ok [strL "-PW",
             '-' :: 'P' :: 'W' :: ((if o.verbose then ['N'] else []) ++ 'L' ::
               (if o.briefListing then ['B'] else [])),
             removeSubAll winPrefixPat pbo.repr]) := by
  constructor
  · rintro pbo outDir ⟨np, we, ff, vb, bl⟩ c hnp hwe hbrief hchars hpe hext hdir hc hd1 hd2
    obtain rfl : np = true := hnp
    obtain rfl : we = true := hwe
    have hdir2 : (!outDir.dirExists && !outDir.createOk) = false := by
      cases h1 : outDir.dirExists <;> cases h2 : outDir.createOk <;> simp_all
    have hdneg : ¬ ∃ x ∈ removeSubAll winPrefixPat c, x ∈ badFilterChars := by
      rintro ⟨x, hx, hxb⟩
      exact hd2 x hx hxb
    cases ff with
    | none =>
      cases vb <;>
        simp +decide [DefaultExtractor.extractWithOptions, ExtractOptions.validate,
          filterTok, runExtractpboCommand, addFlagArgs, findDest, hpe, hext, hdir2, hc,
          hd1, hdneg, strPWeq, strFeq, List.isPrefixOf]
    | some f =>
      obtain rfl : bl = false := by simpa using hbrief
      have hch : f.any (fun c => badFilterChars.contains c) = false := by
        simpa [filterHasBadChars] using hchars
      have hchm : ∀ x ∈ f, x ∉ badFilterChars := by simpa using hch
      have hchneg : ¬ ∃ x ∈ f, x ∈ badFilterChars := by
        rintro ⟨x, hx, hxb⟩
        exact hchm x hx hxb
      cases vb <;>
        simp +decide [DefaultExtractor.extractWithOptions, ExtractOptions.validate,
          filterTok, runExtractpboCommand, addFlagArgs, findDest, hpe, hext, hdir2, hc,
          hd1, hdneg, hchneg, strPWeq, strFeq, List.isPrefixOf, isPrefixOfApp]
  · rintro pbo ⟨np, we, ff, vb, bl⟩ hnp hwe hbrief hchars hpe hext
    obtain rfl : np = true := hnp
    obtain rfl : we = true := hwe
    cases ff with
    | none =>
      cases vb <;> cases bl <;>
        simp +decide [DefaultExtractor.listWithOptions, ExtractOptions.validate,
          runExtractpboCommand, addFlagArgs, findDest, hpe, hext, strPWeq,
          List.isPrefixOf]
    | some f =>
      obtain rfl : bl = false := by simpa using hbrief
      have hch : f.any (fun c => badFilterChars.contains c) = false := by
        simpa [filterHasBadChars] using hchars
      have hchm : ∀ x ∈ f, x ∉ badFilterChars := by simpa using hch
      have hchneg : ¬ ∃ x ∈ f, x ∈ badFilterChars := by
        rintro ⟨x, hx, hxb⟩
        exact hchm x hx hxb
      cases vb <;>
        simp +decide [DefaultExtractor.listWithOptions, ExtractOptions.validate,
          runExtractpboCommand, addFlagArgs, findDest, hpe, hext, hchneg, strPWeq,
          List.isPrefixOf]

/-- Witness for C9 at a concrete extraction request. -/
theorem c9_argument_order_witness :
    DefaultExtractor.extractWithOptions
      ⟨strL "w.pbo", true, some (strL "pbo")⟩
      ⟨strL "wout", true, some true, true, some (strL "D:/wout")⟩
      ⟨true, true, some (strL "g"), false, false⟩ =
      .ok ([strL "-PW",
            '-' :: 'P' :: 'W' ::
              (if (⟨true, true, some (strL "g"), false, false⟩ : ExtractOptions).verbose
               then ['N'] else [])] ++
           filterTok ⟨true, true, some (strL "g"), false, false⟩ ++
           [removeSubAll winPrefixPat (strL "w.pbo"),
            removeSubAll winPrefixPat (strL "D:/wout")]) :=
  c9_argument_order.1
    ⟨strL "w.pbo", true, some (strL "pbo")⟩
    ⟨strL "wout", true, some true, true, some (strL "D:/wout")⟩
    ⟨true, true, some (strL "g"), false, false⟩ (strL "D:/wout")
    rfl rfl rfl (by decide) rfl (by decide) (by decide) rfl (by decide) (by decide)

/-- Witness for C2 at a concrete padded, double-semicolon line. -/
theorem c2_prefix_characterization_witness :
    ExtractResult.getPrefix ⟨0, strL "prefix= x ;;", []⟩ =
      specPrefixVal (strL "prefix= x ;;") ∧
    specPrefixVal (strL "prefix= x ;;") = some (strL "x ") := by
  refine ⟨c2_prefix_characterization.1 ⟨0, strL "prefix= x ;;", []⟩, by decide⟩

/-- Witness for C3 at a concrete mixed listing. -/
theorem c3_file_list_characterization_witness :
    ExtractResult.getFileList ⟨0, strL "prefix=a;\ncfg\\x.bin:2024: 3 bytes", []⟩ =
      specFileList (strL "prefix=a;\ncfg\\x.bin:2024: 3 bytes") ∧
    specFileList (strL "prefix=a;\ncfg\\x.bin:2024: 3 bytes") = [strL "cfg/x.bin"] := by
  refine ⟨c3_file_list_characterization ⟨0, strL "prefix=a;\ncfg\\x.bin:2024: 3 bytes", []⟩,
    by decide⟩

/-- Witness for C4 at a BOM followed by a lone continuation-less lead byte. -/
theorem c4_content_classifier_witness :
    decodeText (0xEF :: 0xBB :: 0xBF :: [0xC0]) =
      .error (.Encoding (strL "Invalid UTF-8 with BOM")) := by
  have h := c4_content_classifier.2.2 [0xC0]
  exact h.trans (by decide)

/-- Witness for C5 at the requested timeout 0: the configured floor is
one second and the deadline case reports Timeout(1). -/
theorem c5_timeout_policy_witness :
    withTimeoutRun (α := Unit) ((PboApiBuilder.new.withTimeout 0).build).timeoutSecs
      RecvOutcome.timedOut = Res.error (.Timeout 1) := by
  have h := (c5_timeout_policy.2.2.2 Unit 0).1
  exact h.trans (by decide)
